import Mathlib

/-!
Shallow embedding of the fuzzy-systems repository's core numeric code:
the membership functions of `laby/lab1/zad1.py`, the vehicle plant model
of `src/simulation/car_simulation.py`, the controller facade of
`src/core_fuzzy/fuzzy_controller.py`, and (modelled from the spec, since
the inference engine itself is the external `skfuzzy` library) the
Mamdani inference engine of spec §4.2–§4.5.  Python float arithmetic is
embedded as exact rational arithmetic over `ℚ`.
-/

namespace FuzzySystems

/-- `triangle(x, a, b, c)` from `laby/lab1/zad1.py` (lines 5–22):
triangular membership function, branches tested in source order. -/
def triangle (x a b c : ℚ) : ℚ :=
  if x ≤ a ∨ x ≥ c then 0
  else if a < x ∧ x ≤ b then (x - a) / (b - a)
  else if b < x ∧ x < c then (c - x) / (c - b)
  else 0

/-- `trapezoid(x, a, b, c, d)` from `laby/lab1/zad1.py` (lines 25–46):
trapezoidal membership function, branches tested in source order. -/
def trapezoid (x a b c d : ℚ) : ℚ :=
  if x ≤ a ∨ x ≥ d then 0
  else if b ≤ x ∧ x ≤ c then 1
  else if a < x ∧ x < b then (x - a) / (b - a)
  else if c < x ∧ x < d then (d - x) / (d - c)
  else 0

/-- `np.clip(x, lo, hi)` as used by the sources: `min (max x lo) hi`. -/
def clip (x lo hi : ℚ) : ℚ := min (max x lo) hi

/-- One entry of `CarSimulation.history` (`car_simulation.py` lines 40–46):
the five parallel lists are embedded as one list of records. -/
structure HistoryEntry where
  time : ℚ
  position : ℚ
  speed : ℚ
  acceleration : ℚ
  throttle : ℚ
deriving DecidableEq

/-- The state of a `CarSimulation` instance (`car_simulation.py` lines 22–46):
configuration parameters, kinematic state and recorded history. -/
structure CarSimulation where
  mass : ℚ
  drag_coeff : ℚ
  max_throttle : ℚ
  dt : ℚ
  position : ℚ
  speed : ℚ
  acceleration : ℚ
  history : List HistoryEntry
deriving DecidableEq

/-- `CarSimulation.__init__` with its default arguments
(`mass=1000, drag_coeff=50, max_throttle=5000, dt=0.033`). -/
def CarSimulation.init : CarSimulation :=
  { mass := 1000, drag_coeff := 50, max_throttle := 5000, dt := 33/1000
    position := 0, speed := 0, acceleration := 0, history := [] }

/-- `CarSimulation.reset` (`car_simulation.py` lines 48–59): zeroes the three
kinematic state fields and clears the history; parameters are untouched. -/
def CarSimulation.reset (c : CarSimulation) : CarSimulation :=
  { c with position := 0, speed := 0, acceleration := 0, history := [] }

/-- `CarSimulation.update` (`car_simulation.py` lines 61–110).  The optional
`dt` argument defaults to `self.dt` when `none` is passed, as in the source's
`if dt is None: dt = self.dt`.  The steps follow the source order: clamp
throttle, throttle force, drag force, acceleration, speed (floor-clamped at
0), then position from the already-clamped new speed. -/
def CarSimulation.update (c : CarSimulation) (throttle : ℚ)
    (dtOpt : Option ℚ := none) : CarSimulation :=
  let dt := dtOpt.getD c.dt
  let throttle := clip throttle 0 100
  let throttle_force := (throttle / 100) * c.max_throttle
  let drag_force := c.drag_coeff * c.speed
  let net_force := throttle_force - drag_force
  let acceleration := net_force / c.mass
  let speed := max 0 (c.speed + acceleration * dt)
  let position := c.position + speed * dt
  { c with position := position, speed := speed, acceleration := acceleration }

/-- The state dictionary returned by `CarSimulation.update`
(`car_simulation.py` lines 103–108): the new position, speed and
acceleration together with the clamped throttle. -/
def CarSimulation.updateReturn (c : CarSimulation) (throttle : ℚ)
    (dtOpt : Option ℚ := none) : ℚ × ℚ × ℚ × ℚ :=
  let c' := c.update throttle dtOpt
  (c'.position, c'.speed, c'.acceleration, clip throttle 0 100)

/-- `CarSimulation.record_state` (`car_simulation.py` lines 112–118):
appends the current state to the history. -/
def CarSimulation.record_state (c : CarSimulation) (time throttle : ℚ) :
    CarSimulation :=
  { c with history := c.history ++
      [{ time := time, position := c.position, speed := c.speed
         acceleration := c.acceleration, throttle := throttle }] }

/-- Iterated plant stepping with constant throttle and constant explicit `dt`,
as in `test_constant_throttle` (`car_simulation.py` lines 196–200). -/
def stepN (c : CarSimulation) (throttle dt : ℚ) : ℕ → CarSimulation
  | 0 => c
  | n + 1 => (stepN c throttle dt n).update throttle (some dt)

/-- The theoretical terminal speed `v_max_theory` printed by
`test_constant_throttle` (`car_simulation.py` line 210):
`(throttle_value/100.0) * max_throttle / drag_coeff`. -/
def terminal_speed (throttle max_throttle drag_coeff : ℚ) : ℚ :=
  (throttle / 100) * max_throttle / drag_coeff

/-- `FuzzyThrottleController.compute_throttle`
(`fuzzy_controller.py` lines 152–174).  The body clamps both inputs with
`np.clip` and hands them to the skfuzzy control-system simulator, an
external library abstracted here by the `engine` parameter. -/
def compute_throttle (engine : ℚ → ℚ → ℚ) (speed_error acceleration : ℚ) :
    ℚ :=
  engine (clip speed_error (-30) 30) (clip acceleration (-10) 10)

/-! ### Basic facts about the membership functions -/

theorem triangle_nonneg (x a b c : ℚ) : 0 ≤ triangle x a b c := by
  unfold triangle
  split_ifs with h1 h2 h3
  · norm_num
  · exact div_nonneg (by linarith [h2.1]) (by linarith [h2.1, h2.2])
  · exact div_nonneg (by linarith [h3.2]) (by linarith [h3.1, h3.2])
  · norm_num

theorem triangle_le_one (x a b c : ℚ) : triangle x a b c ≤ 1 := by
  unfold triangle
  split_ifs with h1 h2 h3
  · norm_num
  · rw [div_le_one (by linarith [h2.1, h2.2])]; linarith [h2.2]
  · rw [div_le_one (by linarith [h3.1, h3.2])]; linarith [h3.1]
  · norm_num

theorem trapezoid_nonneg (x a b c d : ℚ) : 0 ≤ trapezoid x a b c d := by
  unfold trapezoid
  split_ifs with h1 h2 h3 h4
  · norm_num
  · norm_num
  · exact div_nonneg (by linarith [h3.1]) (by linarith [h3.1, h3.2])
  · exact div_nonneg (by linarith [h4.2]) (by linarith [h4.1, h4.2])
  · norm_num

theorem trapezoid_le_one (x a b c d : ℚ) : trapezoid x a b c d ≤ 1 := by
  unfold trapezoid
  split_ifs with h1 h2 h3 h4
  · norm_num
  · norm_num
  · rw [div_le_one (by linarith [h3.1, h3.2])]; linarith [h3.2]
  · rw [div_le_one (by linarith [h4.1, h4.2])]; linarith [h4.1]
  · norm_num

theorem triangle_eq_zero (x a b c : ℚ) (h : x ≤ a ∨ c ≤ x) :
    triangle x a b c = 0 := by
  unfold triangle
  rw [if_pos]
  exact h.imp id id

theorem triangle_rising (x a b c : ℚ) (h1 : a < x) (h2 : x ≤ b) (h3 : x < c) :
    triangle x a b c = (x - a) / (b - a) := by
  unfold triangle
  rw [if_neg (by push_neg; exact ⟨by linarith, by linarith⟩), if_pos ⟨h1, h2⟩]

theorem triangle_falling (x a b c : ℚ) (ha : a ≤ b) (h1 : b < x) (h2 : x < c) :
    triangle x a b c = (c - x) / (c - b) := by
  unfold triangle
  rw [if_neg (by push_neg; exact ⟨by linarith, by linarith⟩),
    if_neg (by rintro ⟨-, h⟩; exact absurd h (by linarith)), if_pos ⟨h1, h2⟩]

theorem triangle_falling_of_le (x a b c : ℚ) (ha : a < b) (h1 : b ≤ x)
    (h2 : x < c) : triangle x a b c = (c - x) / (c - b) := by
  rcases eq_or_lt_of_le h1 with h | h
  · subst h
    rw [triangle_rising b a b c ha le_rfl h2,
      div_self (sub_ne_zero.mpr (ne_of_gt ha)),
      div_self (sub_ne_zero.mpr (ne_of_gt h2))]
  · exact triangle_falling x a b c (le_of_lt ha) h h2

theorem trapezoid_eq_zero (x a b c d : ℚ) (h : x ≤ a ∨ d ≤ x) :
    trapezoid x a b c d = 0 := by
  unfold trapezoid
  rw [if_pos]
  exact h.imp id id

theorem trapezoid_plateau (x a b c d : ℚ) (h1 : b ≤ x) (h2 : x ≤ c)
    (h3 : a < x) (h4 : x < d) : trapezoid x a b c d = 1 := by
  unfold trapezoid
  rw [if_neg (by push_neg; exact ⟨by linarith, by linarith⟩), if_pos ⟨h1, h2⟩]

theorem trapezoid_rising (x a b c d : ℚ) (h1 : a < x) (h2 : x < b)
    (hbd : b ≤ d) : trapezoid x a b c d = (x - a) / (b - a) := by
  unfold trapezoid
  rw [if_neg (by push_neg; exact ⟨by linarith, by linarith⟩),
    if_neg (by rintro ⟨h, -⟩; exact absurd h (by linarith)), if_pos ⟨h1, h2⟩]

theorem trapezoid_falling (x a b c d : ℚ) (h1 : c < x) (h2 : x < d)
    (hac : a ≤ c) (hbc : b ≤ c) : trapezoid x a b c d = (d - x) / (d - c) := by
  unfold trapezoid
  rw [if_neg (by push_neg; exact ⟨by linarith, by linarith⟩),
    if_neg (by rintro ⟨-, h⟩; exact absurd h (by linarith)),
    if_neg (by rintro ⟨-, h⟩; exact absurd h (by linarith)), if_pos ⟨h1, h2⟩]

theorem trapezoid_falling_of_le (x a b c d : ℚ) (h1 : c ≤ x) (h2 : x < d)
    (hac : a < c) (hbc : b ≤ c) : trapezoid x a b c d = (d - x) / (d - c) := by
  rcases eq_or_lt_of_le h1 with h | h
  · subst h
    rw [trapezoid_plateau c a b c d hbc le_rfl hac h2,
      div_self (sub_ne_zero.mpr (ne_of_gt h2))]
  · exact trapezoid_falling x a b c d h h2 (le_of_lt hac) hbc

theorem triangle_mono_rising (a b c x1 x2 : ℚ) (hab : a < b) (hbc : b < c)
    (h1 : a ≤ x1) (h12 : x1 ≤ x2) (h2 : x2 ≤ b) :
    triangle x1 a b c ≤ triangle x2 a b c := by
  rcases le_or_lt x1 a with h | h
  · rw [triangle_eq_zero x1 a b c (Or.inl h)]
    exact triangle_nonneg x2 a b c
  · rw [triangle_rising x1 a b c h (le_trans h12 h2) (by linarith),
      triangle_rising x2 a b c (lt_of_lt_of_le h h12) h2 (by linarith)]
    exact (div_le_div_iff_of_pos_right (by linarith)).mpr (by linarith)

theorem triangle_mono_falling (a b c x1 x2 : ℚ) (hab : a < b) (hbc : b < c)
    (h1 : b ≤ x1) (h12 : x1 ≤ x2) (h2 : x2 ≤ c) :
    triangle x2 a b c ≤ triangle x1 a b c := by
  rcases le_or_lt c x2 with h | h
  · rw [triangle_eq_zero x2 a b c (Or.inr h)]
    exact triangle_nonneg x1 a b c
  · rw [triangle_falling_of_le x2 a b c hab (le_trans h1 h12) h,
      triangle_falling_of_le x1 a b c hab h1 (lt_of_le_of_lt h12 h)]
    exact (div_le_div_iff_of_pos_right (by linarith)).mpr (by linarith)

theorem trapezoid_mono_rising (a b c d x1 x2 : ℚ) (hab : a < b) (hbc : b ≤ c)
    (hbd : b < d) (h1 : a ≤ x1) (h12 : x1 ≤ x2) (h2 : x2 ≤ b) :
    trapezoid x1 a b c d ≤ trapezoid x2 a b c d := by
  rcases le_or_lt x1 a with h | h
  · rw [trapezoid_eq_zero x1 a b c d (Or.inl h)]
    exact trapezoid_nonneg x2 a b c d
  · rcases lt_or_eq_of_le h2 with h2' | h2'
    · rw [trapezoid_rising x1 a b c d h (lt_of_le_of_lt h12 h2') hbd.le,
        trapezoid_rising x2 a b c d (lt_of_lt_of_le h h12) h2' hbd.le]
      exact (div_le_div_iff_of_pos_right (by linarith)).mpr (by linarith)
    · rw [h2', trapezoid_plateau b a b c d le_rfl hbc (by linarith) hbd]
      exact trapezoid_le_one x1 a b c d

theorem trapezoid_mono_falling (a b c d x1 x2 : ℚ) (hac : a < c) (hbc : b ≤ c)
    (hcd : c < d) (h1 : c ≤ x1) (h12 : x1 ≤ x2) (h2 : x2 ≤ d) :
    trapezoid x2 a b c d ≤ trapezoid x1 a b c d := by
  rcases le_or_lt d x2 with h | h
  · rw [trapezoid_eq_zero x2 a b c d (Or.inr h)]
    exact trapezoid_nonneg x1 a b c d
  · rw [trapezoid_falling_of_le x2 a b c d (le_trans h1 h12) h hac hbc,
      trapezoid_falling_of_le x1 a b c d h1 (lt_of_le_of_lt h12 h) hac hbc]
    exact (div_le_div_iff_of_pos_right (by linarith)).mpr (by linarith)

/-! ### Claim theorems: membership functions -/

/-- C1: `triangle` and `trapezoid` realise the spec's piecewise definitions
(cases read in the spec's listed order, the zero case first, which is the
source's branch order), the degree is 0 everywhere outside the support, and
the degree always lies in [0, 1]. -/
theorem C1_membership_piecewise :
    (∀ x a b c : ℚ, a ≤ b → b ≤ c →
      ((x ≤ a ∨ c ≤ x) → triangle x a b c = 0) ∧
      (a < x → x ≤ b → x < c → triangle x a b c = (x - a) / (b - a)) ∧
      (b < x → x < c → triangle x a b c = (c - x) / (c - b)) ∧
      0 ≤ triangle x a b c ∧ triangle x a b c ≤ 1) ∧
    (∀ x a b c d : ℚ, a ≤ b → b ≤ c → c ≤ d →
      ((x ≤ a ∨ d ≤ x) → trapezoid x a b c d = 0) ∧
      (b ≤ x → x ≤ c → a < x → x < d → trapezoid x a b c d = 1) ∧
      (a < x → x < b → trapezoid x a b c d = (x - a) / (b - a)) ∧
      (c < x → x < d → trapezoid x a b c d = (d - x) / (d - c)) ∧
      0 ≤ trapezoid x a b c d ∧ trapezoid x a b c d ≤ 1) := by
  constructor
  · intro x a b c hab hbc
    exact ⟨triangle_eq_zero x a b c,
      fun h1 h2 h3 => triangle_rising x a b c h1 h2 h3,
      fun h1 h2 => triangle_falling x a b c hab h1 h2,
      triangle_nonneg x a b c, triangle_le_one x a b c⟩
  · intro x a b c d hab hbc hcd
    exact ⟨trapezoid_eq_zero x a b c d,
      fun h1 h2 h3 h4 => trapezoid_plateau x a b c d h1 h2 h3 h4,
      fun h1 h2 => trapezoid_rising x a b c d h1 h2 (le_trans hbc hcd),
      fun h1 h2 => trapezoid_falling x a b c d h1 h2 (le_trans hab hbc) hbc,
      trapezoid_nonneg x a b c d, trapezoid_le_one x a b c d⟩

/-- Witness for C1 at the source's own test shapes, `triangle(x, 3, 5, 7)`
and `trapezoid(x, 2, 4, 6, 8)`. -/
theorem C1_membership_piecewise_witness :
    triangle (4 : ℚ) 3 5 7 = (4 - 3) / (5 - 3) ∧
    trapezoid (3 : ℚ) 2 4 6 8 = (3 - 2) / (4 - 2) :=
  ⟨(C1_membership_piecewise.1 4 3 5 7 (by norm_num) (by norm_num)).2.1
      (by norm_num) (by norm_num) (by norm_num),
   (C1_membership_piecewise.2 3 2 4 6 8 (by norm_num) (by norm_num)
      (by norm_num)).2.2.1 (by norm_num) (by norm_num)⟩

/-- C3 fails as stated: for the degenerate triangular shape a = b = 0, c = 1
(which satisfies a ≤ b ≤ c), the peak evaluates to 0, not 1, because the
source's first branch `x <= a` catches x = b = a. -/
theorem C3_counterexample :
    (0 : ℚ) ≤ 0 ∧ (0 : ℚ) ≤ 1 ∧ triangle (0 : ℚ) 0 0 1 ≠ 1 := by
  refine ⟨le_rfl, by norm_num, ?_⟩
  rw [triangle_eq_zero 0 0 0 1 (Or.inl le_rfl)]
  norm_num

/-- C3 amended: the peak degree is exactly 1 for nondegenerate shapes
(a < b < c for triangular; a < b ≤ c < d for trapezoidal, on all of [b, c]).
In the degenerate case a = b the step at x = a excludes its corner point:
the evaluation returns 0 there (total, no division by zero is reached). -/
theorem C3_peak_amended :
    (∀ a b c : ℚ, a < b → b < c → triangle b a b c = 1) ∧
    (∀ a b c d x : ℚ, a < b → b ≤ c → c < d → b ≤ x → x ≤ c →
      trapezoid x a b c d = 1) ∧
    (∀ a b c : ℚ, a = b → triangle b a b c = 0) ∧
    (∀ a b c d : ℚ, a = b → trapezoid b a b c d = 0) := by
  refine ⟨fun a b c hab hbc => ?_, fun a b c d x hab hbc hcd h1 h2 => ?_,
    fun a b c hab => ?_, fun a b c d hab => ?_⟩
  · rw [triangle_rising b a b c hab le_rfl hbc,
      div_self (sub_ne_zero.mpr (ne_of_gt hab))]
  · exact trapezoid_plateau x a b c d h1 h2 (by linarith) (by linarith)
  · exact triangle_eq_zero b a b c (Or.inl (le_of_eq hab.symm))
  · exact trapezoid_eq_zero b a b c d (Or.inl (le_of_eq hab.symm))

/-- Witness for the amended C3 at the source's test shapes. -/
theorem C3_peak_amended_witness :
    triangle (5 : ℚ) 3 5 7 = 1 ∧ trapezoid (5 : ℚ) 2 4 6 8 = 1 ∧
    triangle (0 : ℚ) 0 0 1 = 0 :=
  ⟨C3_peak_amended.1 3 5 7 (by norm_num) (by norm_num),
   C3_peak_amended.2.1 2 4 6 8 5 (by norm_num) (by norm_num) (by norm_num)
     (by norm_num) (by norm_num),
   C3_peak_amended.2.2.1 0 0 1 rfl⟩

/-- C8 fails as stated: for the degenerate triangular shape a = b = 0, c = 1
(which satisfies a ≤ b ≤ c), the degree is not non-increasing on [b, c]:
at x1 = 0 the degree is 0 while at x2 = 1/2 it is 1/2. -/
theorem C8_counterexample :
    (0 : ℚ) ≤ 0 ∧ (0 : ℚ) ≤ 1 ∧ (0 : ℚ) ≤ (1 / 2 : ℚ) ∧ (1 / 2 : ℚ) ≤ 1 ∧
    ¬ triangle (1 / 2 : ℚ) 0 0 1 ≤ triangle (0 : ℚ) 0 0 1 := by
  refine ⟨le_rfl, by norm_num, by norm_num, by norm_num, ?_⟩
  rw [triangle_eq_zero 0 0 0 1 (Or.inl le_rfl),
    triangle_falling (1 / 2) 0 0 1 le_rfl (by norm_num) (by norm_num)]
  norm_num

/-- C8 amended: the monotonicity claim holds for all ordered shapes except
exactly the fully collapsed sides forced by the counterexample, where the
zero value at the peak endpoint breaks it.  The degree is non-decreasing
on the rising interval [a, b] whenever b < c (triangular) / b < d
(trapezoidal) or a = b, and non-increasing on the falling interval
([b, c] triangular, [c, d] trapezoidal) whenever a < b (triangular) /
a < c (trapezoidal) or the falling interval is the single point b = c /
c = d.  In particular one-sided shoulder shapes such as
`trapmf([-30,-30,-20,-10])` keep both monotonicity properties; only
a < b = c (triangular rising), a = b < c (triangular falling),
a < b = c = d (trapezoidal rising) and a = b = c < d (trapezoidal falling)
fail. -/
theorem C8_slope_monotone_amended :
    (∀ a b c x1 x2 : ℚ, a ≤ b → b ≤ c →
      ((b < c ∨ a = b) → a ≤ x1 → x1 ≤ x2 → x2 ≤ b →
        triangle x1 a b c ≤ triangle x2 a b c) ∧
      ((a < b ∨ b = c) → b ≤ x1 → x1 ≤ x2 → x2 ≤ c →
        triangle x2 a b c ≤ triangle x1 a b c)) ∧
    (∀ a b c d x1 x2 : ℚ, a ≤ b → b ≤ c → c ≤ d →
      ((a = b ∨ b < d) → a ≤ x1 → x1 ≤ x2 → x2 ≤ b →
        trapezoid x1 a b c d ≤ trapezoid x2 a b c d) ∧
      ((c = d ∨ a < c) → c ≤ x1 → x1 ≤ x2 → x2 ≤ d →
        trapezoid x2 a b c d ≤ trapezoid x1 a b c d)) := by
  constructor
  · intro a b c x1 x2 hab hbc
    constructor
    · intro h h1 h12 h2
      rcases eq_or_lt_of_le hab with hab' | hab'
      · exact le_of_eq (by rw [le_antisymm h12 (by linarith)])
      · rcases h with h | h
        · exact triangle_mono_rising a b c x1 x2 hab' h h1 h12 h2
        · exact absurd h (ne_of_lt hab')
    · intro h h1 h12 h2
      rcases eq_or_lt_of_le hbc with hbc' | hbc'
      · exact le_of_eq (by rw [le_antisymm h12 (by linarith)])
      · rcases h with h | h
        · exact triangle_mono_falling a b c x1 x2 h hbc' h1 h12 h2
        · exact absurd h (ne_of_lt hbc')
  · intro a b c d x1 x2 hab hbc hcd
    constructor
    · intro h h1 h12 h2
      rcases eq_or_lt_of_le hab with hab' | hab'
      · exact le_of_eq (by rw [le_antisymm h12 (by linarith)])
      · rcases h with h | h
        · exact absurd h (ne_of_lt hab')
        · exact trapezoid_mono_rising a b c d x1 x2 hab' hbc h h1 h12 h2
    · intro h h1 h12 h2
      rcases eq_or_lt_of_le hcd with hcd' | hcd'
      · exact le_of_eq (by rw [le_antisymm h12 (by linarith)])
      · rcases h with h | h
        · exact absurd h (ne_of_lt hcd')
        · exact trapezoid_mono_falling a b c d x1 x2 h hbc hcd' h1 h12 h2

/-- Witness for the amended C8 at the source's triangular test shape and
at the repository's own left-shoulder term
`speed_error['negative_large'] = trapmf([-30, -30, -20, -10])`. -/
theorem C8_slope_monotone_amended_witness :
    triangle (7 / 2 : ℚ) 3 5 7 ≤ triangle (4 : ℚ) 3 5 7 ∧
    trapezoid (-15 : ℚ) (-30) (-30) (-20) (-10) ≤
      trapezoid (-20 : ℚ) (-30) (-30) (-20) (-10) :=
  ⟨(C8_slope_monotone_amended.1 3 5 7 (7 / 2) 4 (by norm_num)
      (by norm_num)).1 (Or.inl (by norm_num)) (by norm_num) (by norm_num)
      (by norm_num),
   (C8_slope_monotone_amended.2 (-30) (-30) (-20) (-10) (-20) (-15)
      (by norm_num) (by norm_num) (by norm_num)).2 (Or.inr (by norm_num))
      (by norm_num) (by norm_num) (by norm_num)⟩

/-! ### Facts about the plant simulator -/

theorem clip_clip (x lo hi : ℚ) (h : lo ≤ hi) :
    clip (clip x lo hi) lo hi = clip x lo hi := by
  unfold clip
  rw [max_eq_left (le_min (le_max_right x lo) h), min_eq_left (min_le_right _ _)]

theorem update_speed_closed (c : CarSimulation) (t dt : ℚ)
    (ht0 : 0 ≤ t) (ht1 : t ≤ 100) :
    (c.update t (some dt)).speed =
      max 0 (c.speed +
        (t / 100 * c.max_throttle - c.drag_coeff * c.speed) / c.mass * dt) := by
  have hclip : clip t 0 100 = t := by
    unfold clip
    rw [max_eq_left ht0, min_eq_left ht1]
  show max 0 (c.speed +
      (clip t 0 100 / 100 * c.max_throttle - c.drag_coeff * c.speed) / c.mass
        * dt) = _
  rw [hclip]

theorem stepN_params (c : CarSimulation) (t dt : ℚ) (n : ℕ) :
    (stepN c t dt n).mass = c.mass ∧
    (stepN c t dt n).drag_coeff = c.drag_coeff ∧
    (stepN c t dt n).max_throttle = c.max_throttle := by
  induction n with
  | zero => exact ⟨rfl, rfl, rfl⟩
  | succ n ih => exact ih

theorem stepN_speed_closed (c : CarSimulation) (t dt : ℚ)
    (hm : 0 < c.mass) (hk : 0 < c.drag_coeff) (hF : 0 ≤ c.max_throttle)
    (hdt : 0 < dt) (hstab : c.drag_coeff * dt ≤ c.mass)
    (ht0 : 0 ≤ t) (ht1 : t ≤ 100) (hs : 0 ≤ c.speed) : ∀ n : ℕ,
    (stepN c t dt n).speed =
      terminal_speed t c.max_throttle c.drag_coeff +
        (1 - c.drag_coeff * dt / c.mass) ^ n *
          (c.speed - terminal_speed t c.max_throttle c.drag_coeff) := by
  set v := terminal_speed t c.max_throttle c.drag_coeff with hv_def
  set r := (1 - c.drag_coeff * dt / c.mass : ℚ) with hr_def
  have hv : 0 ≤ v := by
    rw [hv_def]
    unfold terminal_speed
    exact div_nonneg (mul_nonneg (div_nonneg ht0 (by norm_num)) hF) hk.le
  have hr0 : 0 ≤ r := by
    rw [hr_def, sub_nonneg, div_le_one hm]
    exact hstab
  have hr1 : r ≤ 1 := by
    rw [hr_def]
    have h1 : 0 < c.drag_coeff * dt / c.mass := by positivity
    linarith
  have hkv : t / 100 * c.max_throttle = c.drag_coeff * v := by
    rw [hv_def]
    unfold terminal_speed
    field_simp
    ring
  intro n
  induction n with
  | zero => simp [stepN]
  | succ n ih =>
    have hparams := stepN_params c t dt n
    show ((stepN c t dt n).update t (some dt)).speed = _
    rw [update_speed_closed _ t dt ht0 ht1, hparams.1, hparams.2.1,
      hparams.2.2, ih, hkv]
    have key : v + r ^ n * (c.speed - v) +
        (c.drag_coeff * v - c.drag_coeff * (v + r ^ n * (c.speed - v))) /
          c.mass * dt = v + r ^ (n + 1) * (c.speed - v) := by
      rw [hr_def, pow_succ]
      field_simp
      ring
    rw [key]
    have hp0 : 0 ≤ r ^ (n + 1) := pow_nonneg hr0 _
    have hp1 : r ^ (n + 1) ≤ 1 := pow_le_one₀ hr0 hr1
    have hfin : 0 ≤ v + r ^ (n + 1) * (c.speed - v) := by
      nlinarith [mul_nonneg hp0 hs, mul_nonneg (sub_nonneg.mpr hp1) hv]
    exact max_eq_right hfin

/-! ### Claim theorems: plant simulator and controller facade -/

/-- C2: `CarSimulation.update` performs exactly the spec's steps in order:
the throttle is clamped to [0, 100], the new acceleration is
((t/100)·max_throttle − drag_coeff·speed)/mass, the new speed is
max(0, speed + acceleration·dt), and the position update adds
new_speed·dt using the already floor-clamped new speed. -/
theorem C2_update_steps (c : CarSimulation) (t dt : ℚ) (hs : 0 ≤ c.speed) :
    (c.update t (some dt)).acceleration =
      (clip t 0 100 / 100 * c.max_throttle - c.drag_coeff * c.speed) /
        c.mass ∧
    (c.update t (some dt)).speed =
      max 0 (c.speed + (c.update t (some dt)).acceleration * dt) ∧
    (c.update t (some dt)).position =
      c.position + (c.update t (some dt)).speed * dt :=
  ⟨rfl, rfl, rfl⟩

/-- Witness for C2 at the default configuration, an out-of-range throttle
and dt = 1/10. -/
theorem C2_update_steps_witness :
    (CarSimulation.init.update 150 (some (1 / 10))).acceleration =
      (clip 150 0 100 / 100 * CarSimulation.init.max_throttle -
        CarSimulation.init.drag_coeff * CarSimulation.init.speed) /
          CarSimulation.init.mass ∧
    (CarSimulation.init.update 150 (some (1 / 10))).speed =
      max 0 (CarSimulation.init.speed +
        (CarSimulation.init.update 150 (some (1 / 10))).acceleration *
          (1 / 10)) ∧
    (CarSimulation.init.update 150 (some (1 / 10))).position =
      CarSimulation.init.position +
        (CarSimulation.init.update 150 (some (1 / 10))).speed * (1 / 10) :=
  C2_update_steps CarSimulation.init 150 (1 / 10) le_rfl

/-- C4: the speed after `update` is never negative, and starting from
speed = 0 with throttle = 0 and any dt > 0 the speed after `update` is
exactly 0 (zero drag at rest, zero net force). -/
theorem C4_speed_nonneg (c : CarSimulation) (t : ℚ) (dtOpt : Option ℚ) :
    0 ≤ (c.update t dtOpt).speed ∧
    (c.speed = 0 → ∀ dt : ℚ, 0 < dt → (c.update 0 (some dt)).speed = 0) := by
  constructor
  · exact le_max_left 0 _
  · intro h0 dt hdt
    show max 0 (c.speed +
        (clip 0 0 100 / 100 * c.max_throttle - c.drag_coeff * c.speed) /
          c.mass * dt) = 0
    rw [h0]
    norm_num [clip]

/-- Witness for C4 at the default configuration. -/
theorem C4_speed_nonneg_witness :
    0 ≤ (CarSimulation.init.update 30 none).speed ∧
    (CarSimulation.init.update 0 (some 1)).speed = 0 :=
  ⟨(C4_speed_nonneg CarSimulation.init 30 none).1,
   (C4_speed_nonneg CarSimulation.init 0 (some 1)).2 rfl 1 (by norm_num)⟩

/-- C7: with constant throttle t ∈ [0, 100], positive mass and drag, dt > 0
small enough for stability (drag_coeff·dt ≤ mass) and a non-negative
starting speed, the iterated speeds converge to
(t/100)·max_throttle/drag_coeff — an expression independent of the mass —
a speed equal to that value is a fixed point of the speed update, and the
spec's example (throttle 50, max force 5000, drag 50) gives 50 m/s. -/
theorem C7_terminal_velocity (c : CarSimulation) (t dt : ℚ)
    (hm : 0 < c.mass) (hk : 0 < c.drag_coeff) (hF : 0 ≤ c.max_throttle)
    (hdt : 0 < dt) (hstab : c.drag_coeff * dt ≤ c.mass)
    (ht0 : 0 ≤ t) (ht1 : t ≤ 100) (hs : 0 ≤ c.speed) :
    Filter.Tendsto (fun n : ℕ => ((stepN c t dt n).speed : ℝ)) Filter.atTop
      (nhds ((terminal_speed t c.max_throttle c.drag_coeff : ℚ) : ℝ)) ∧
    (c.speed = terminal_speed t c.max_throttle c.drag_coeff →
      (c.update t (some dt)).speed = c.speed) ∧
    terminal_speed 50 5000 50 = 50 := by
  have hclosed := stepN_speed_closed c t dt hm hk hF hdt hstab ht0 ht1 hs
  have hr0 : (0 : ℚ) ≤ 1 - c.drag_coeff * dt / c.mass := by
    rw [sub_nonneg, div_le_one hm]
    exact hstab
  have hr1 : (1 - c.drag_coeff * dt / c.mass : ℚ) < 1 := by
    have h1 : 0 < c.drag_coeff * dt / c.mass := by positivity
    linarith
  refine ⟨?_, ?_, by norm_num [terminal_speed]⟩
  · have heq : (fun n : ℕ => ((stepN c t dt n).speed : ℝ)) =
        fun n : ℕ =>
          ((terminal_speed t c.max_throttle c.drag_coeff : ℚ) : ℝ) +
            ((1 - c.drag_coeff * dt / c.mass : ℚ) : ℝ) ^ n *
              ((c.speed : ℝ) -
                ((terminal_speed t c.max_throttle c.drag_coeff : ℚ) : ℝ)) := by
      funext n
      rw [hclosed n]
      push_cast
      ring
    rw [heq]
    have h0 : Filter.Tendsto
        (fun n : ℕ => ((1 - c.drag_coeff * dt / c.mass : ℚ) : ℝ) ^ n)
        Filter.atTop (nhds 0) :=
      tendsto_pow_atTop_nhds_zero_of_lt_one (by exact_mod_cast hr0)
        (by exact_mod_cast hr1)
    have h1 := (h0.mul_const ((c.speed : ℝ) -
      ((terminal_speed t c.max_throttle c.drag_coeff : ℚ) : ℝ))).const_add
      ((terminal_speed t c.max_throttle c.drag_coeff : ℚ) : ℝ)
    simpa using h1
  · intro hsv
    have h1 := hclosed 1
    rw [show stepN c t dt 1 = c.update t (some dt) from rfl] at h1
    rw [h1, ← hsv]
    ring

/-- Witness for C7 at the default configuration with throttle 50 and
dt = 1/10, the scenario of `test_constant_throttle`. -/
theorem C7_terminal_velocity_witness :
    Filter.Tendsto
      (fun n : ℕ =>
        ((stepN CarSimulation.init 50 (1 / 10) n).speed : ℝ))
      Filter.atTop
      (nhds ((terminal_speed 50 CarSimulation.init.max_throttle
        CarSimulation.init.drag_coeff : ℚ) : ℝ)) ∧
    (CarSimulation.init.speed =
        terminal_speed 50 CarSimulation.init.max_throttle
          CarSimulation.init.drag_coeff →
      (CarSimulation.init.update 50 (some (1 / 10))).speed =
        CarSimulation.init.speed) ∧
    terminal_speed 50 5000 50 = 50 :=
  C7_terminal_velocity CarSimulation.init 50 (1 / 10)
    (by norm_num [CarSimulation.init]) (by norm_num [CarSimulation.init])
    (by norm_num [CarSimulation.init]) (by norm_num)
    (by norm_num [CarSimulation.init]) (by norm_num) (by norm_num) le_rfl

/-- C9: `reset` zeroes all three kinematic state fields. -/
theorem C9_reset_zeroes (c : CarSimulation) :
    c.reset.position = 0 ∧ c.reset.speed = 0 ∧ c.reset.acceleration = 0 :=
  ⟨rfl, rfl, rfl⟩

/-- C10: `update` mutates only the three kinematic state fields — the
configuration parameters mass, drag_coeff, max_throttle and the default dt,
and the recorded history, are all unchanged — while the history grows only
through `record_state`, which appends exactly one entry. -/
theorem C10_update_frame (c : CarSimulation) (t : ℚ) (dtOpt : Option ℚ)
    (time thr : ℚ) :
    (c.update t dtOpt).mass = c.mass ∧
    (c.update t dtOpt).drag_coeff = c.drag_coeff ∧
    (c.update t dtOpt).max_throttle = c.max_throttle ∧
    (c.update t dtOpt).dt = c.dt ∧
    (c.update t dtOpt).history = c.history ∧
    (c.record_state time thr).history = c.history ++
      [{ time := time, position := c.position, speed := c.speed
         acceleration := c.acceleration, throttle := thr }] :=
  ⟨rfl, rfl, rfl, rfl, rfl, rfl⟩

/-- C5: the controller facade clamps each input to its variable's universe
before handing it to the inference engine, so out-of-range inputs give the
same output as the clamped boundary values, whatever the engine computes. -/
theorem C5_facade_clamps (engine : ℚ → ℚ → ℚ) (e a : ℚ) :
    compute_throttle engine e a =
      compute_throttle engine (min (max e (-30)) 30)
        (min (max a (-10)) 10) := by
  unfold compute_throttle
  rw [show min (max e (-30)) 30 = clip e (-30) 30 from rfl,
    show min (max a (-10)) 10 = clip a (-10) 10 from rfl,
    clip_clip e (-30) 30 (by norm_num), clip_clip a (-10) 10 (by norm_num)]

/-! ### Inference engine, modelled from the spec

The repository's rule evaluation is delegated to the external `skfuzzy`
library (`fuzzy_controller.py` builds `ctrl.ControlSystem` /
`ctrl.ControlSystemSimulation` objects), so the engine itself is not in the
sources; the definitions below are modelled from spec §3 and §4.2–§4.5. -/

/-- Modelled from the spec (§7 Error handling): the evaluation-time error
kind `MissingInput(variable_name)`. -/
inductive FuzzyError where
  | MissingInput (var : String)
deriving DecidableEq

/-- Modelled from the spec (§3 Data model): the membership-function shape
variant {triangular(a,b,c), trapezoidal(a,b,c,d)}. -/
inductive MFShape where
  | triangular (a b c : ℚ)
  | trapezoidal (a b c d : ℚ)
deriving DecidableEq

/-- Shape evaluation per spec §4.1, realised by the source's `triangle`
and `trapezoid`. -/
def MFShape.degree : MFShape → ℚ → ℚ
  | .triangular a b c, x => triangle x a b c
  | .trapezoidal a b c d, x => trapezoid x a b c d

/-- Modelled from the spec (§3): a Universe is an evenly sampled range. -/
structure SampledUniverse where
  lo : ℚ
  hi : ℚ
  step : ℚ
deriving DecidableEq

/-- The sample grid of a Universe: `⌈(hi−lo)/step⌉+1` points from `lo`. -/
def SampledUniverse.samples (u : SampledUniverse) : List ℚ :=
  (List.range (((u.hi - u.lo) / u.step).ceil.toNat + 1)).map
    (fun i => u.lo + i * u.step)

/-- Modelled from the spec (§3): a variable's role flag {input, output}. -/
inductive VarRole where
  | input
  | output
deriving DecidableEq, BEq

/-- Modelled from the spec (§3): a Linguistic Variable — a name, a
Universe, named terms, and a role flag. -/
structure LinguisticVariable where
  name : String
  univ : SampledUniverse
  terms : List (String × MFShape)
  role : VarRole

/-- Modelled from the spec (§3, Design note 3): the antecedent tree
{Leaf(var,term), And(left,right), Or(left,right)}. -/
inductive Antecedent where
  | leaf (var term : String)
  | and (l r : Antecedent)
  | or (l r : Antecedent)

/-- The input variables an antecedent references. -/
def Antecedent.vars : Antecedent → List String
  | .leaf v _ => [v]
  | .and l r => l.vars ++ r.vars
  | .or l r => l.vars ++ r.vars

/-- Modelled from the spec (§3): a Fuzzy Rule — antecedent tree, consequent
(variable, term) assignments, and a weight. -/
structure FuzzyRule where
  antecedent : Antecedent
  consequents : List (String × String)
  weight : ℚ

/-- Fuzzified degree of (variable, term) at a crisp value: look the term up
in the variable's definition and evaluate its membership function (name
validity is the builder's duty per spec §6, so unknown names degrade to 0,
never to an error). -/
def termDegree (vs : List LinguisticVariable) (v term : String) (x : ℚ) :
    ℚ :=
  match vs.find? (fun lv => lv.name == v) with
  | none => 0
  | some lv =>
    match lv.terms.find? (fun p => p.1 == term) with
    | none => 0
    | some p => p.2.degree x

/-- Modelled from the spec (§4.2): firing strength of an antecedent —
fuzzify each leaf at the crisp input of its variable, AND = min,
OR = max; a variable absent from the crisp inputs fails the evaluation
with `MissingInput` naming it. -/
def firingStrength (vs : List LinguisticVariable)
    (inputs : String → Option ℚ) : Antecedent → Except FuzzyError ℚ
  | .leaf v term =>
    match inputs v with
    | none => .error (.MissingInput v)
    | some x => .ok (termDegree vs v term x)
  | .and l r =>
    match firingStrength vs inputs l with
    | .error e => .error e
    | .ok sl =>
      match firingStrength vs inputs r with
      | .error e => .error e
      | .ok sr => .ok (min sl sr)
  | .or l r =>
    match firingStrength vs inputs l with
    | .error e => .error e
    | .ok sl =>
      match firingStrength vs inputs r with
      | .error e => .error e
      | .ok sr => .ok (max sl sr)

/-- Modelled from the spec (§4.5 step 1): the firing strengths of all rules
in order, failing fast on the first `MissingInput`. -/
def firingStrengths (vs : List LinguisticVariable)
    (inputs : String → Option ℚ) : List FuzzyRule → Except FuzzyError (List ℚ)
  | [] => .ok []
  | r :: rs =>
    match firingStrength vs inputs r.antecedent with
    | .error e => .error e
    | .ok s =>
      match firingStrengths vs inputs rs with
      | .error e => .error e
      | .ok ss => .ok (s :: ss)

/-- Modelled from the spec (§4.3): aggregated output membership at a sample
point — the pointwise maximum over all consequent activations for the
variable, each clipped to firing strength times weight. -/
def aggregatedDegree (vs : List LinguisticVariable) (rules : List FuzzyRule)
    (strengths : List ℚ) (v : String) (x : ℚ) : ℚ :=
  (rules.zip strengths).foldl
    (fun acc rs =>
      rs.1.consequents.foldl
        (fun acc2 ct =>
          if ct.1 = v then
            max acc2 (min (rs.2 * rs.1.weight) (termDegree vs v ct.2 x))
          else acc2)
        acc)
    0

/-- Modelled from the spec (§4.4): centroid defuzzification over the sample
grid, with the documented midpoint fallback when no rule fired. -/
def centroid (samples : List ℚ) (μ : ℚ → ℚ) (fallback : ℚ) : ℚ :=
  if (samples.map μ).sum = 0 then fallback
  else (samples.map (fun x => x * μ x)).sum / (samples.map μ).sum

/-- Modelled from the spec (§4.5): `evaluate` — firing strengths (fail fast
on `MissingInput`), aggregation per output variable, centroid
defuzzification; on failure no output mapping at all is produced. -/
def evaluate (vs : List LinguisticVariable) (rules : List FuzzyRule)
    (inputs : String → Option ℚ) :
    Except FuzzyError (List (String × ℚ)) :=
  match firingStrengths vs inputs rules with
  | .error e => .error e
  | .ok strengths =>
    .ok ((vs.filter (fun lv => lv.role == VarRole.output)).map
      (fun lv =>
        (lv.name,
          centroid lv.univ.samples (aggregatedDegree vs rules strengths lv.name)
            ((lv.univ.lo + lv.univ.hi) / 2))))

theorem firingStrength_ok_of_present (vs : List LinguisticVariable)
    (inputs : String → Option ℚ) (ant : Antecedent)
    (h : ∀ v ∈ ant.vars, inputs v ≠ none) :
    ∃ q, firingStrength vs inputs ant = .ok q := by
  induction ant with
  | leaf v term =>
    have hv : inputs v ≠ none := h v (by simp [Antecedent.vars])
    cases hx : inputs v with
    | none => exact absurd hx hv
    | some x => exact ⟨termDegree vs v term x, by simp [firingStrength, hx]⟩
  | and l r ihl ihr =>
    obtain ⟨ql, hl⟩ := ihl (fun v hv => h v (by simp [Antecedent.vars, hv]))
    obtain ⟨qr, hr⟩ := ihr (fun v hv => h v (by simp [Antecedent.vars, hv]))
    exact ⟨min ql qr, by simp [firingStrength, hl, hr]⟩
  | or l r ihl ihr =>
    obtain ⟨ql, hl⟩ := ihl (fun v hv => h v (by simp [Antecedent.vars, hv]))
    obtain ⟨qr, hr⟩ := ihr (fun v hv => h v (by simp [Antecedent.vars, hv]))
    exact ⟨max ql qr, by simp [firingStrength, hl, hr]⟩

theorem firingStrength_error_of_missing (vs : List LinguisticVariable)
    (inputs : String → Option ℚ) (ant : Antecedent)
    (h : ∃ v ∈ ant.vars, inputs v = none) :
    ∃ w ∈ ant.vars, inputs w = none ∧
      firingStrength vs inputs ant = .error (.MissingInput w) := by
  induction ant with
  | leaf v term =>
    obtain ⟨w, hw, hmiss⟩ := h
    rw [show Antecedent.vars (.leaf v term) = [v] from rfl] at hw
    rw [List.mem_singleton] at hw
    subst hw
    exact ⟨w, by simp [Antecedent.vars], hmiss, by simp [firingStrength, hmiss]⟩
  | and l r ihl ihr =>
    by_cases hl : ∃ v ∈ l.vars, inputs v = none
    · obtain ⟨w, hw, hmiss, herr⟩ := ihl hl
      exact ⟨w, by simp [Antecedent.vars, hw], hmiss,
        by simp [firingStrength, herr]⟩
    · push_neg at hl
      obtain ⟨ql, hql⟩ := firingStrength_ok_of_present vs inputs l hl
      have hr : ∃ v ∈ r.vars, inputs v = none := by
        obtain ⟨w, hw, hmiss⟩ := h
        rw [show Antecedent.vars (.and l r) = l.vars ++ r.vars from rfl,
          List.mem_append] at hw
        rcases hw with hw | hw
        · exact absurd hmiss (hl w hw)
        · exact ⟨w, hw, hmiss⟩
      obtain ⟨w, hw, hmiss, herr⟩ := ihr hr
      exact ⟨w, by simp [Antecedent.vars, hw], hmiss,
        by simp [firingStrength, hql, herr]⟩
  | or l r ihl ihr =>
    by_cases hl : ∃ v ∈ l.vars, inputs v = none
    · obtain ⟨w, hw, hmiss, herr⟩ := ihl hl
      exact ⟨w, by simp [Antecedent.vars, hw], hmiss,
        by simp [firingStrength, herr]⟩
    · push_neg at hl
      obtain ⟨ql, hql⟩ := firingStrength_ok_of_present vs inputs l hl
      have hr : ∃ v ∈ r.vars, inputs v = none := by
        obtain ⟨w, hw, hmiss⟩ := h
        rw [show Antecedent.vars (.or l r) = l.vars ++ r.vars from rfl,
          List.mem_append] at hw
        rcases hw with hw | hw
        · exact absurd hmiss (hl w hw)
        · exact ⟨w, hw, hmiss⟩
      obtain ⟨w, hw, hmiss, herr⟩ := ihr hr
      exact ⟨w, by simp [Antecedent.vars, hw], hmiss,
        by simp [firingStrength, hql, herr]⟩

theorem firingStrengths_error_of_missing (vs : List LinguisticVariable)
    (inputs : String → Option ℚ) (rules : List FuzzyRule)
    (h : ∃ r ∈ rules, ∃ v ∈ r.antecedent.vars, inputs v = none) :
    ∃ w, (∃ r' ∈ rules, w ∈ r'.antecedent.vars) ∧ inputs w = none ∧
      firingStrengths vs inputs rules = .error (.MissingInput w) := by
  induction rules with
  | nil => obtain ⟨r, hr, -⟩ := h; exact absurd hr (List.not_mem_nil r)
  | cons r0 rs ih =>
    by_cases h0 : ∃ v ∈ r0.antecedent.vars, inputs v = none
    · obtain ⟨w, hw, hmiss, herr⟩ :=
        firingStrength_error_of_missing vs inputs r0.antecedent h0
      exact ⟨w, ⟨r0, by simp, hw⟩, hmiss, by simp [firingStrengths, herr]⟩
    · push_neg at h0
      obtain ⟨q0, hq0⟩ :=
        firingStrength_ok_of_present vs inputs r0.antecedent h0
      have htail : ∃ r ∈ rs, ∃ v ∈ r.antecedent.vars, inputs v = none := by
        obtain ⟨r, hr, v, hv, hmiss⟩ := h
        rcases List.mem_cons.mp hr with hr | hr
        · subst hr; exact absurd hmiss (h0 v hv)
        · exact ⟨r, hr, v, hv, hmiss⟩
      obtain ⟨w, ⟨r', hr', hw⟩, hmiss, herr⟩ := ih htail
      exact ⟨w, ⟨r', by simp [hr'], hw⟩, hmiss,
        by simp [firingStrengths, hq0, herr]⟩

/-! ### Claim theorem: missing-input error handling -/

/-- C6: if some rule's antecedent references a variable absent from the
crisp input mapping, `evaluate` fails with `MissingInput` naming a
referenced absent variable and produces no output mapping at all (the
result is the bare error, so no output variable receives a value; the
evaluation is a pure function, so no shared state can be mutated), rather
than silently defaulting the missing input. -/
theorem C6_missing_input (vs : List LinguisticVariable)
    (rules : List FuzzyRule) (inputs : String → Option ℚ) (r : FuzzyRule)
    (v : String) (hr : r ∈ rules) (hv : v ∈ r.antecedent.vars)
    (hmiss : inputs v = none) :
    ∃ w, (∃ r' ∈ rules, w ∈ r'.antecedent.vars) ∧ inputs w = none ∧
      evaluate vs rules inputs = .error (.MissingInput w) := by
  obtain ⟨w, hw, hwmiss, herr⟩ :=
    firingStrengths_error_of_missing vs inputs rules ⟨r, hr, v, hv, hmiss⟩
  exact ⟨w, hw, hwmiss, by unfold evaluate; rw [herr]⟩

/-- A concrete rule for the C6 witness, shaped like the repository's
`speed_error['zero'] & acceleration['zero'] → throttle['medium']`. -/
def demoRule : FuzzyRule :=
  { antecedent := .and (.leaf "speed_error" "zero") (.leaf "acceleration" "zero")
    consequents := [("throttle", "medium")]
    weight := 1 }

/-- Witness for C6: evaluating `demoRule` with an empty input mapping fails
with `MissingInput`. -/
theorem C6_missing_input_witness :
    ∃ w, (∃ r' ∈ [demoRule], w ∈ r'.antecedent.vars) ∧
      (fun _ : String => (none : Option ℚ)) w = none ∧
      evaluate [] [demoRule] (fun _ => none) = .error (.MissingInput w) :=
  C6_missing_input [] [demoRule] (fun _ => none) demoRule "speed_error"
    (by simp) (by simp [demoRule, Antecedent.vars]) rfl

end FuzzySystems
